import Mathlib

/-!
Verification of the email-extractor extraction pipeline

Shallow embedding of `src/email_extractor_app.py`, function
`extract_emails_from_files` (lines 9–64), together with the regex
`email_pattern = r'\b[a-zA-Z0-9._%+-]+@[a-zA-Z0-9.-]+\.[a-zA-Z]{2,}\b'`
(compiled with `re.IGNORECASE`, which is a no-op here because every
character class already lists both cases).

Modelling decisions:

* Strings are Lean `String`s (sequences of Unicode code points), matching
  Python 3 `str`.  Python compares strings code point by code point, which
  is exactly Lean's `String` order.
* The regex metacharacter `\w` (used by `\b`) is modelled over ASCII
  (`[A-Za-z0-9_]`); all character classes of the pattern itself are ASCII
  by construction.
* The third-party readers (pandas for `.xls/.xlsx/.xlsm`, python-docx for
  `.docx`, PyPDF2 for `.pdf`) are abstracted by the sequence of *text
  units* (spreadsheet cells / paragraphs and table cells / page texts)
  they yield, in reading order, together with an optional exception raised
  after those units: the `try` block in the source observes exactly a
  stream of text units possibly terminated by a raise (e.g. pandas can
  read one sheet and then raise on a corrupt later sheet).
* The progress/log callback returns no value to the extractor, so it is
  modelled by its truthiness (`log_callback` present or `None`), and the
  messages passed to it are collected as an explicit log trace: the
  effectful Python function becomes a pure function returning the pair
  (emails, log trace).
-/

namespace EmailExtractor

/-! ## Character classes of the compiled pattern -/

/-- The class `[a-zA-Z0-9._%+-]` (local part). `Char.isAlphanum` is ASCII
`[a-zA-Z0-9]`, as in the pattern. -/
def isLocalChar (c : Char) : Bool :=
  c.isAlphanum || c = '.' || c = '_' || c = '%' || c = '+' || c = '-'

/-- The class `[a-zA-Z0-9.-]` (domain). -/
def isDomainChar (c : Char) : Bool :=
  c.isAlphanum || c = '.' || c = '-'

/-- The class `[a-zA-Z]` (top-level label). -/
def isTldChar (c : Char) : Bool :=
  c.isAlpha

/-- Python's `\w` over ASCII: `[a-zA-Z0-9_]`; `\b` is a transition between
`\w` and non-`\w` (or a text boundary). -/
def isWordChar (c : Char) : Bool :=
  c.isAlphanum || c = '_'

/-- Whether an optional character (text boundary = `none`) is a word
character. -/
def optWord : Option Char → Bool
  | none => false
  | some c => isWordChar c

/-- The boundary `\b` holds between two (optional) characters iff exactly one side is a
word character. -/
def boundaryB (prev next : Option Char) : Bool :=
  optWord prev != optWord next

/-- Length of the maximal prefix of `l` whose characters satisfy `p`
(the maximal text a greedy `p`-class repetition can consume). -/
def runLen (p : Char → Bool) : List Char → Nat
  | [] => 0
  | c :: cs => if p c then runLen p cs + 1 else 0

/-! ## The matcher

A backtracking matcher specialised to the fixed pattern
`\b L+ @ D+ \. A{2,} \b` with `L`,`D`,`A` the classes above, implementing
Python `re` semantics: at a given start position a greedy repetition first
consumes its maximal run and on failure of the rest of the pattern gives
characters back one at a time (down to the repetition's minimum).  Each
`try…` function receives the candidate repetition length to try first and
counts it down. -/

/-- Stage `A{2,}\b` against `u`: try `a` characters (all of `u.take a` are
letters whenever `a` is at most the letter run of `u`, as at every call
site), longest first, accepting when the final `\b` holds between the last
consumed character `u[a-1]` and the following one. Returns the number of
characters consumed. -/
def tryTld (u : List Char) : Nat → Option Nat
  | 0 => none
  | a + 1 =>
    if 2 ≤ a + 1 && boundaryB (u[a]?) (u[a+1]?) then some (a + 1)
    else tryTld u a

/-- Stage `D+\.A{2,}\b` against `t`: try a domain of `k` characters, longest
first; after it the pattern needs a literal `'.'` (at index `k`, i.e.
`t.get? k` when trying length `k`) and then the top-level label. Returns
the number of characters consumed from `t`. -/
def tryDomain (t : List Char) : Nat → Option Nat
  | 0 => none
  | k + 1 =>
    match (if t[k+1]? = some '.' then
             (tryTld (t.drop (k + 2)) (runLen isTldChar (t.drop (k + 2)))).map
               (fun a => k + 2 + a)
           else none) with
    | some n => some n
    | none => tryDomain t k

/-- Stage `L+@D+\.A{2,}\b` against `s`: try a local part of `k` characters,
longest first; after it the pattern needs a literal `'@'` and then the
domain. Returns the number of characters consumed from `s`. -/
def tryLocal (s : List Char) : Nat → Option Nat
  | 0 => none
  | k + 1 =>
    match (if s[k+1]? = some '@' then
             (tryDomain (s.drop (k + 2)) (runLen isDomainChar (s.drop (k + 2)))).map
               (fun m => k + 2 + m)
           else none) with
    | some n => some n
    | none => tryLocal s k

/-- One attempt of the whole pattern at the current position: the leading
`\b` (between the previous character `prev` and the first character of
`s`), then the rest. Returns the length of the match. -/
def matchFrom (prev : Option Char) (s : List Char) : Option Nat :=
  if boundaryB prev s.head? then tryLocal s (runLen isLocalChar s) else none

/-- The `re.findall` scanning loop: attempt a match at each position from left
to right; on success emit the matched text and resume at its end (the
pattern cannot match the empty string, so the scan always advances).
`fuel` bounds the recursion; every call site passes enough fuel to scan
the whole string. -/
def findallAux : Nat → Option Char → List Char → List (List Char)
  | 0, _, _ => []
  | fuel + 1, prev, s =>
    match matchFrom prev s with
    | some n => s.take n :: findallAux fuel (s[n-1]?) (s.drop n)
    | none =>
      match s with
      | [] => []
      | c :: cs => findallAux fuel (some c) cs

/-- Python `email_pattern.findall(s)` (source line 33 etc.): all non-overlapping
matches of the pattern in `s`, left to right. -/
def findall (s : String) : List String :=
  (findallAux (s.data.length + 1) none s.data).map (fun cs => String.mk cs)

/-! ## Full matches of the pattern

Whether a string is, in its entirety, a match of the email pattern
(`re.fullmatch`).  For this pattern the leftmost greedy attempt at
position 0 consumes the whole string whenever any whole-string match
exists: the domain backtracking tries later dots first, and a
whole-string match must use the last dot of the string (the top-level
label contains no dot), which greedy tries before any earlier dot; so
`re.fullmatch` succeeds iff `matchFrom` at position 0 against empty
context consumes every character. -/

/-- Whether `re.fullmatch(email_pattern, s)` is a match: the pattern, including
both `\b` anchors, matches `s` from its first character to its last. -/
def emailFullmatch (s : String) : Bool :=
  decide (matchFrom none s.data = some s.data.length)

/-- A whole-string match of the pattern *without* its two `\b` anchors:
`s` is `local ++ "@" ++ domain ++ "." ++ tld` with a nonempty all-`L`
local part, a nonempty all-`D` domain, and a top-level label of 2+
letters.  Deterministic parse: the local part must be the maximal `L` run
(the character after a shorter local part would be an `L` character, not
`'@'`), and the top-level label must be the maximal trailing letter run
(the character before a shorter trailing label would be a letter, not
`'.'`). -/
def coreFullmatch (s : String) : Bool :=
  let cs := s.data
  let k := runLen isLocalChar cs
  let rest := cs.drop (k + 1)
  let m := rest.reverse
  let r := runLen isTldChar m
  decide (1 ≤ k) && decide (cs[k]? = some '@') && decide (2 ≤ r)
    && decide (m[r]? = some '.') && !(m.drop (r + 1)).isEmpty
    && (m.drop (r + 1)).all isDomainChar

/-! ## Filenames: `os.path.splitext(filename)[1].lower()` (source line 20) -/

/-- CPython `str.rfind` of a single character: index of its last
occurrence in `cs`, `-1` if absent. -/
def rfindC (cs : List Char) (c : Char) : Int :=
  match cs.reverse.findIdx? (fun x => x = c) with
  | none => -1
  | some j => (cs.length : Int) - 1 - j

/-- Python `os.path.splitext(p)[1]` (posix: separator `'/'`, no alternative
separator): the suffix starting at the last `'.'`, provided that dot lies
after the last `'/'` and some character strictly between them is not a
dot (leading dots of the basename never start an extension). -/
def splitextExt (p : String) : String :=
  let cs := p.data
  let sepIndex := rfindC cs '/'
  let dotIndex := rfindC cs '.'
  if sepIndex < dotIndex then
    if ((cs.take dotIndex.toNat).drop (sepIndex + 1).toNat).any (fun x => x ≠ '.') then
      String.mk (cs.drop dotIndex.toNat)
    else ""
  else ""

/-- Python `str.lower` restricted to ASCII (`Char.toLower` lowercases
exactly `'A'`–`'Z'`); the extensions the dispatch compares against are
ASCII. -/
def pyLower (s : String) : String :=
  String.mk (s.data.map Char.toLower)

/-! ## The extraction pipeline -/

/-- One uploaded file, as the pipeline observes it: its name (used only
for extension sniffing and log text) and the behaviour of the
format-specific reader on its bytes — the text units the reader yields in
reading order and, when `err = some e`, the exception (with message `e`)
it raises after yielding them (`err = none`: the reader returns
normally).  A reader that raises at once has `units = []`. -/
structure InputFile where
  name : String
  units : List String
  err : Option String
  deriving DecidableEq, Repr

/-- The matches a file contributes to `email_set`: for a recognised
extension, every pattern match in every text unit the reader yields
before returning or raising (source lines 26–56, `email_set.update`
runs inside each reading loop, inside the `try`); an unrecognised
extension contributes nothing (lines 57–59). -/
def fileMatches (f : InputFile) : List String :=
  let ext := pyLower (splitextExt f.name)
  if ext ∈ [".xls", ".xlsx", ".xlsm"] then (f.units.map findall).flatten
  else if ext = ".docx" then (f.units.map findall).flatten
  else if ext = ".pdf" then (f.units.map findall).flatten
  else []

/-- The log messages emitted while processing one file (file number
`idx` of `total`), all guarded by the presence of the callback
(`cb`): the progress line (lines 22–23), then — for a recognised
extension — the error line if the reader raises
(lines 60–62), or — for an unrecognised extension — the unsupported-type
line (lines 57–59). -/
def fileLogs (cb : Bool) (total idx : Nat) (f : InputFile) : List String :=
  let ext := pyLower (splitextExt f.name)
  (if cb then ["Processing file " ++ toString idx ++ "/" ++ toString total ++ ": " ++ f.name]
   else []) ++
  (if ext ∈ [".xls", ".xlsx", ".xlsm"] ∨ ext = ".docx" ∨ ext = ".pdf" then
     match f.err with
     | none => []
     | some e => if cb then ["Error processing file " ++ f.name ++ ": " ++ e] else []
   else if cb then ["Unsupported file type: " ++ f.name] else [])

/-- The `for idx, uploaded_file in enumerate(files, start=1)` loop (lines
18–62), written with the per-run `email_set` as the list of inserted
matches in insertion order (a Python `set` retains no order and duplicate
insertion is a no-op, so only membership matters; the final
`sorted(email_set)` is applied by the caller) and the callback's message
trace made explicit. -/
def runFiles (cb : Bool) (total : Nat) : Nat → List InputFile → List String × List String
  | _, [] => ([], [])
  | idx, f :: rest =>
    let r := runFiles cb total (idx + 1) rest
    (fileMatches f ++ r.1, fileLogs cb total idx f ++ r.2)

/-- CPython `str.__lt__` on two lists of code points: at the first
position where they differ the smaller code point decides; if one string
runs out first it is the smaller. -/
def lexLtb : List Char → List Char → Bool
  | [], [] => false
  | [], _ :: _ => true
  | _ :: _, [] => false
  | a :: as, b :: bs => if a = b then lexLtb as bs else decide (a.toNat < b.toNat)

/-- Python's plain (case-sensitive) string comparison `x < y`:
lexicographic by Unicode code point. -/
def strLtb (x y : String) : Bool :=
  lexLtb x.data y.data

/-- Strict sorted insertion of a string into a strictly sorted list,
skipping an element already present. -/
def insertSorted (x : String) : List String → List String
  | [] => [x]
  | y :: ys =>
    if strLtb x y then x :: y :: ys
    else if x = y then y :: ys
    else y :: insertSorted x ys

/-- Python `sorted(set(l))` for strings: the elements of `l`, each once,
in ascending order of Python's plain (code point, case-sensitive) string
comparison `strLtb`. -/
def pySortedSet (l : List String) : List String :=
  l.foldl (fun acc x => insertSorted x acc) []

/-- The function `extract_emails_from_files(files, log_callback)` (source lines 9–64):
processes the files in order and returns `sorted(email_set)` (line 64),
paired with the full ordered trace of messages passed to the callback
(`cb = true` ↔ a callback was supplied). -/
def extract_emails_from_files (files : List InputFile) (cb : Bool) :
    List String × List String :=
  let r := runFiles cb files.length 1 files
  (pySortedSet r.1, r.2)

/-! ## Order lemmas for the code-point comparison -/

theorem charToNat_inj {a b : Char} (h : a.toNat = b.toNat) : a = b := by
  have ha := Char.ofNat_toNat a
  rw [h, Char.ofNat_toNat b] at ha
  exact ha.symm

theorem lexLtb_irrefl : ∀ (x : List Char), lexLtb x x = false := by
  intro x
  induction x with
  | nil => rfl
  | cons a as ih => simpa [lexLtb] using ih

theorem lexLtb_trans :
    ∀ (x y z : List Char), lexLtb x y = true → lexLtb y z = true →
      lexLtb x z = true := by
  intro x
  induction x with
  | nil =>
    intro y z hxy hyz
    cases y with
    | nil => simp [lexLtb] at hxy
    | cons b bs =>
      cases z with
      | nil => simp [lexLtb] at hyz
      | cons c cs => simp [lexLtb]
  | cons a as ih =>
    intro y z hxy hyz
    cases y with
    | nil => simp [lexLtb] at hxy
    | cons b bs =>
      cases z with
      | nil => simp [lexLtb] at hyz
      | cons c cs =>
        simp only [lexLtb] at hxy hyz ⊢
        by_cases hab : a = b
        · subst hab
          by_cases hac : a = c
          · subst hac
            simp only [if_pos rfl] at hxy hyz ⊢
            exact ih bs cs hxy hyz
          · rw [if_neg hac] at hyz ⊢
            exact hyz
        · rw [if_neg hab] at hxy
          by_cases hbc : b = c
          · subst hbc
            rw [if_neg hab]
            exact hxy
          · rw [if_neg hbc] at hyz
            have h1 : a.toNat < b.toNat := of_decide_eq_true hxy
            have h2 : b.toNat < c.toNat := of_decide_eq_true hyz
            have hac : a ≠ c := by
              intro he
              subst he
              exact absurd (Nat.lt_trans h1 h2) (Nat.lt_irrefl _)
            rw [if_neg hac]
            exact decide_eq_true (Nat.lt_trans h1 h2)

theorem lexLtb_total :
    ∀ (x y : List Char), lexLtb x y = false → x ≠ y → lexLtb y x = true := by
  intro x
  induction x with
  | nil =>
    intro y hxy hne
    cases y with
    | nil => exact absurd rfl hne
    | cons b bs => simp [lexLtb] at hxy
  | cons a as ih =>
    intro y hxy hne
    cases y with
    | nil => simp [lexLtb]
    | cons b bs =>
      simp only [lexLtb] at hxy ⊢
      by_cases hab : a = b
      · subst hab
        rw [if_pos rfl] at hxy
        rw [if_pos rfl]
        have hne' : as ≠ bs := by
          intro he
          exact hne (by rw [he])
        exact ih bs hxy hne'
      · rw [if_neg hab] at hxy
        have h1 : ¬ a.toNat < b.toNat := of_decide_eq_false hxy
        have h2 : b.toNat ≠ a.toNat := fun he => hab (charToNat_inj he).symm
        have hba : b ≠ a := fun he => hab he.symm
        rw [if_neg hba]
        exact decide_eq_true (Nat.lt_of_le_of_ne (Nat.le_of_not_lt h1) h2)

theorem string_ext {x y : String} (h : x.data = y.data) : x = y :=
  congrArg String.mk h

theorem strLtb_irrefl (x : String) : strLtb x x = false :=
  lexLtb_irrefl x.data

theorem strLtb_trans {x y z : String} (h1 : strLtb x y = true)
    (h2 : strLtb y z = true) : strLtb x z = true :=
  lexLtb_trans x.data y.data z.data h1 h2

theorem strLtb_total {x y : String} (h1 : strLtb x y = false) (h2 : x ≠ y) :
    strLtb y x = true :=
  lexLtb_total x.data y.data h1 (fun he => h2 (string_ext he))

theorem strLtb_ne {x y : String} (h : strLtb x y = true) : x ≠ y := by
  intro he
  subst he
  rw [strLtb_irrefl] at h
  exact Bool.false_ne_true h

/-! ## Lemmas about `insertSorted` and `pySortedSet` -/

theorem insertSorted_mem (x a : String) :
    ∀ (l : List String), a ∈ insertSorted x l ↔ a = x ∨ a ∈ l := by
  intro l
  induction l with
  | nil => simp [insertSorted]
  | cons y ys ih =>
    simp only [insertSorted]
    split
    · simp [List.mem_cons]
    · split
      · rename_i hlt heq
        subst heq
        simp only [List.mem_cons]
        constructor
        · intro h
          exact Or.inr h
        · rintro (rfl | h)
          · exact Or.inl rfl
          · exact h
      · simp only [List.mem_cons, ih]
        tauto

theorem insertSorted_pairwise (x : String) :
    ∀ (l : List String), l.Pairwise (fun a b => strLtb a b = true) →
      (insertSorted x l).Pairwise (fun a b => strLtb a b = true) := by
  intro l
  induction l with
  | nil =>
    intro _
    simp [insertSorted]
  | cons y ys ih =>
    intro h
    rw [List.pairwise_cons] at h
    obtain ⟨hy, hys⟩ := h
    simp only [insertSorted]
    split
    · rename_i hlt
      rw [List.pairwise_cons]
      refine ⟨?_, List.pairwise_cons.mpr ⟨hy, hys⟩⟩
      intro b hb
      rcases List.mem_cons.mp hb with rfl | hb'
      · exact hlt
      · exact strLtb_trans hlt (hy b hb')
    · split
      · exact List.pairwise_cons.mpr ⟨hy, hys⟩
      · rename_i hnlt hne
        rw [List.pairwise_cons]
        refine ⟨?_, ih hys⟩
        intro b hb
        rcases (insertSorted_mem x b ys).mp hb with rfl | hb'
        · exact strLtb_total (Bool.not_eq_true _ ▸ hnlt) hne
        · exact hy b hb'

theorem pySortedSet_go_mem :
    ∀ (l acc : List String) (a : String),
      a ∈ l.foldl (fun acc x => insertSorted x acc) acc ↔ a ∈ acc ∨ a ∈ l := by
  intro l
  induction l with
  | nil => simp
  | cons x xs ih =>
    intro acc a
    rw [List.foldl_cons, ih, insertSorted_mem]
    simp only [List.mem_cons]
    tauto

/-- Membership in the returned list is exactly membership in the inserted
matches: `sorted(email_set)` keeps each collected address once. -/
theorem pySortedSet_mem (l : List String) (a : String) :
    a ∈ pySortedSet l ↔ a ∈ l := by
  rw [pySortedSet, pySortedSet_go_mem]
  simp

theorem pySortedSet_go_pairwise :
    ∀ (l acc : List String), acc.Pairwise (fun a b => strLtb a b = true) →
      (l.foldl (fun acc x => insertSorted x acc) acc).Pairwise
        (fun a b => strLtb a b = true) := by
  intro l
  induction l with
  | nil =>
    intro acc h
    exact h
  | cons x xs ih =>
    intro acc h
    rw [List.foldl_cons]
    exact ih _ (insertSorted_pairwise x acc h)

/-- The returned list is strictly ascending in Python's plain string
order. -/
theorem pySortedSet_pairwise (l : List String) :
    (pySortedSet l).Pairwise (fun a b => strLtb a b = true) :=
  pySortedSet_go_pairwise l [] List.Pairwise.nil

/-! ## Structure of the per-file loop -/

theorem runFiles_fst (cb : Bool) (total : Nat) :
    ∀ (fs : List InputFile) (idx : Nat),
      (runFiles cb total idx fs).1 = (fs.map fileMatches).flatten := by
  intro fs
  induction fs with
  | nil =>
    intro idx
    rfl
  | cons f rest ih =>
    intro idx
    simp [runFiles, ih]

theorem runFiles_snd (cb : Bool) (total : Nat) :
    ∀ (fs : List InputFile) (idx : Nat),
      (runFiles cb total idx fs).2 =
        ((List.enumFrom idx fs).map (fun p => fileLogs cb total p.1 p.2)).flatten := by
  intro fs
  induction fs with
  | nil =>
    intro idx
    rfl
  | cons f rest ih =>
    intro idx
    simp [runFiles, ih, List.enumFrom]

theorem runFiles_append (cb : Bool) (total : Nat) :
    ∀ (xs ys : List InputFile) (idx : Nat),
      runFiles cb total idx (xs ++ ys) =
        ((runFiles cb total idx xs).1 ++ (runFiles cb total (idx + xs.length) ys).1,
         (runFiles cb total idx xs).2 ++ (runFiles cb total (idx + xs.length) ys).2) := by
  intro xs
  induction xs with
  | nil =>
    intro ys idx
    simp [runFiles]
  | cons f rest ih =>
    intro ys idx
    simp only [List.cons_append, runFiles, List.length_cons, List.append_eq]
    rw [ih ys (idx + 1)]
    have harith : idx + 1 + rest.length = idx + (rest.length + 1) := by omega
    rw [harith, List.append_assoc, List.append_assoc]

/-! ## Shape of a successful match

Every substring the scanner emits decomposes as
`local ++ '@' :: (domain ++ '.' :: tld)` with the advertised character
classes; this is the content of the soundness invariant. -/

theorem data_mk (cs : List Char) : (String.mk cs).data = cs := rfl

theorem runLen_le_length (p : Char → Bool) :
    ∀ (l : List Char), runLen p l ≤ l.length := by
  intro l
  induction l with
  | nil => exact Nat.le_refl 0
  | cons c cs ih =>
    rw [runLen]
    split
    · exact Nat.succ_le_succ ih
    · exact Nat.zero_le _

theorem all_take_of_le_runLen (p : Char → Bool) :
    ∀ (l : List Char) (n : Nat), n ≤ runLen p l → ∀ c ∈ l.take n, p c = true := by
  intro l
  induction l with
  | nil =>
    intro n _ c hc
    simp at hc
  | cons a as ih =>
    intro n hn c hc
    cases n with
    | zero => simp at hc
    | succ m =>
      rw [runLen] at hn
      split at hn
      · rename_i hpa
        rcases List.mem_cons.mp (by simpa using hc) with rfl | hc'
        · exact hpa
        · exact ih m (Nat.le_of_succ_le_succ hn) c hc'
      · exact absurd hn (by omega)

theorem runLen_append_all (p : Char → Bool) :
    ∀ (A : List Char) (c : Char) (r : List Char),
      (∀ x ∈ A, p x = true) → p c = false →
      runLen p (A ++ c :: r) = A.length := by
  intro A
  induction A with
  | nil =>
    intro c r _ hc
    simp [runLen, hc]
  | cons a as ih =>
    intro c r hall hc
    have hpa : p a = true := hall a (List.mem_cons_self a as)
    have hall' : ∀ x ∈ as, p x = true := fun x hx => hall x (List.mem_cons_of_mem a hx)
    simp only [List.cons_append, runLen, hpa, if_pos, List.length_cons, List.append_eq]
    rw [ih c r hall' hc]

theorem take_surgery (l : List Char) (d a : Nat) (c : Char) (h : l[d]? = some c) :
    l.take (d + 1 + a) = l.take d ++ c :: ((l.drop (d + 1)).take a) := by
  rw [List.take_add, List.take_succ, h]
  simp [List.append_assoc]

theorem tryTld_bound (u : List Char) :
    ∀ (a r : Nat), tryTld u a = some r → 2 ≤ r ∧ r ≤ a := by
  intro a
  induction a with
  | zero =>
    intro r h
    simp [tryTld] at h
  | succ a ih =>
    intro r h
    rw [tryTld] at h
    split at h
    · rename_i hcond
      have h2 : 2 ≤ a + 1 := by
        have := (Bool.and_eq_true _ _).mp hcond
        exact of_decide_eq_true this.1
      cases h
      exact ⟨h2, Nat.le_refl _⟩
    · have := ih r h
      exact ⟨this.1, Nat.le_succ_of_le this.2⟩

theorem tryDomain_shape (t : List Char) :
    ∀ (k m : Nat), tryDomain t k = some m →
      ∃ d a, 1 ≤ d ∧ d ≤ k ∧ t[d]? = some '.' ∧
        tryTld (t.drop (d + 1)) (runLen isTldChar (t.drop (d + 1))) = some a ∧
        m = d + 1 + a := by
  intro k
  induction k with
  | zero =>
    intro m h
    simp [tryDomain] at h
  | succ k ih =>
    intro m h
    rw [tryDomain] at h
    split at h
    · rename_i n hif
      cases h
      by_cases hdot : t[k+1]? = some '.'
      · rw [if_pos hdot] at hif
        rcases Option.map_eq_some'.mp hif with ⟨a, hta, hna⟩
        refine ⟨k + 1, a, by omega, Nat.le_refl _, hdot, hta, by omega⟩
      · rw [if_neg hdot] at hif
        exact absurd hif (by simp)
    · rcases ih m h with ⟨d, a, h1, h2, h3, h4, h5⟩
      exact ⟨d, a, h1, Nat.le_succ_of_le h2, h3, h4, h5⟩

theorem tryLocal_shape (s : List Char) :
    ∀ (k n : Nat), tryLocal s k = some n →
      ∃ l₀ m, 1 ≤ l₀ ∧ l₀ ≤ k ∧ s[l₀]? = some '@' ∧
        tryDomain (s.drop (l₀ + 1)) (runLen isDomainChar (s.drop (l₀ + 1))) = some m ∧
        n = l₀ + 1 + m := by
  intro k
  induction k with
  | zero =>
    intro n h
    simp [tryLocal] at h
  | succ k ih =>
    intro n h
    rw [tryLocal] at h
    split at h
    · rename_i n' hif
      cases h
      by_cases hat : s[k+1]? = some '@'
      · rw [if_pos hat] at hif
        rcases Option.map_eq_some'.mp hif with ⟨m, htd, hnm⟩
        refine ⟨k + 1, m, by omega, Nat.le_refl _, hat, htd, by omega⟩
      · rw [if_neg hat] at hif
        exact absurd hif (by simp)
    · rcases ih n h with ⟨l₀, m, h1, h2, h3, h4, h5⟩
      exact ⟨l₀, m, h1, Nat.le_succ_of_le h2, h3, h4, h5⟩

theorem matchFrom_decomp (prev : Option Char) (s : List Char) (n : Nat)
    (h : matchFrom prev s = some n) :
    ∃ A B C, s.take n = A ++ '@' :: (B ++ '.' :: C) ∧
      A ≠ [] ∧ (∀ c ∈ A, isLocalChar c = true) ∧
      B ≠ [] ∧ (∀ c ∈ B, isDomainChar c = true) ∧
      2 ≤ C.length ∧ (∀ c ∈ C, isTldChar c = true) := by
  rw [matchFrom] at h
  split at h
  case isFalse => exact absurd h (by simp)
  case isTrue hb =>
    obtain ⟨l₀, m, hl1, hlk, hat, hdom, hn⟩ := tryLocal_shape s _ n h
    obtain ⟨d, a, hd1, hdk, hdot, htld, hm⟩ := tryDomain_shape _ _ m hdom
    obtain ⟨ha2, hak⟩ := tryTld_bound _ _ a htld
    refine ⟨s.take l₀, (s.drop (l₀ + 1)).take d,
      ((s.drop (l₀ + 1)).drop (d + 1)).take a, ?_, ?_, ?_, ?_, ?_, ?_, ?_⟩
    · rw [hn, hm, take_surgery s l₀ (d + 1 + a) '@' hat,
        take_surgery (s.drop (l₀ + 1)) d a '.' hdot]
    · have hlen : l₀ ≤ s.length :=
        Nat.le_trans hlk (runLen_le_length isLocalChar s)
      have : (s.take l₀).length = l₀ := by
        rw [List.length_take]
        omega
      intro he
      rw [he] at this
      simp at this
      omega
    · exact all_take_of_le_runLen isLocalChar s l₀ hlk
    · have hlen : d ≤ (s.drop (l₀ + 1)).length :=
        Nat.le_trans hdk (runLen_le_length isDomainChar _)
      have : ((s.drop (l₀ + 1)).take d).length = d := by
        rw [List.length_take]
        omega
      intro he
      rw [he] at this
      simp at this
      omega
    · exact all_take_of_le_runLen isDomainChar _ d hdk
    · have hlen : a ≤ ((s.drop (l₀ + 1)).drop (d + 1)).length :=
        Nat.le_trans hak (runLen_le_length isTldChar _)
      rw [List.length_take]
      omega
    · exact all_take_of_le_runLen isTldChar _ a hak

theorem coreFullmatch_of_decomp (A B C : List Char)
    (hA : A ≠ []) (hAall : ∀ c ∈ A, isLocalChar c = true)
    (hB : B ≠ []) (hBall : ∀ c ∈ B, isDomainChar c = true)
    (hC2 : 2 ≤ C.length) (hCall : ∀ c ∈ C, isTldChar c = true) :
    coreFullmatch (String.mk (A ++ '@' :: (B ++ '.' :: C))) = true := by
  have hk : runLen isLocalChar (A ++ '@' :: (B ++ '.' :: C)) = A.length :=
    runLen_append_all isLocalChar A '@' _ hAall (by decide)
  have hat : (A ++ '@' :: (B ++ '.' :: C))[A.length]? = some '@' := by
    rw [List.getElem?_append_right (Nat.le_refl A.length)]
    simp
  have hrest : (A ++ '@' :: (B ++ '.' :: C)).drop (A.length + 1) = B ++ '.' :: C := by
    rw [List.append_cons A '@']
    rw [List.drop_left' (by simp)]
  have hrev : (B ++ '.' :: C).reverse = C.reverse ++ '.' :: B.reverse := by
    rw [List.reverse_append, List.reverse_cons, List.append_assoc,
      List.singleton_append]
  have hr : runLen isTldChar (C.reverse ++ '.' :: B.reverse) = C.length := by
    rw [runLen_append_all isTldChar C.reverse '.' B.reverse
      (fun c hc => hCall c (List.mem_reverse.mp hc)) (by decide)]
    exact List.length_reverse C
  have hdotr : (C.reverse ++ '.' :: B.reverse)[C.length]? = some '.' := by
    rw [← List.length_reverse C, List.getElem?_append_right (Nat.le_refl _)]
    simp
  have hdropr : (C.reverse ++ '.' :: B.reverse).drop (C.length + 1) = B.reverse := by
    rw [List.append_cons C.reverse '.']
    rw [List.drop_left' (by simp)]
  have h1 : 1 ≤ A.length := by
    have := List.length_pos.mpr hA
    omega
  have h2 : B.reverse.isEmpty = false := by
    rw [Bool.eq_false_iff]
    intro htrue
    exact hB (List.reverse_eq_nil_iff.mp (List.isEmpty_iff.mp htrue))
  have h3 : ∀ c ∈ B.reverse, isDomainChar c = true :=
    fun c hc => hBall c (List.mem_reverse.mp hc)
  simp only [coreFullmatch, data_mk, hk, hat, hrest, hrev, hr, hdotr, hdropr,
    Bool.and_eq_true, decide_eq_true_eq, Bool.not_eq_true', List.all_eq_true]
  exact ⟨⟨⟨⟨⟨h1, trivial⟩, hC2⟩, trivial⟩, h2⟩, h3⟩

theorem findallAux_succ (fuel : Nat) (prev : Option Char) (s : List Char) :
    findallAux (fuel + 1) prev s =
      match matchFrom prev s with
      | some n => s.take n :: findallAux fuel (s[n-1]?) (s.drop n)
      | none =>
        match s with
        | [] => []
        | c :: cs => findallAux fuel (some c) cs := rfl

theorem findallAux_core :
    ∀ (fuel : Nat) (prev : Option Char) (s x : List Char),
      x ∈ findallAux fuel prev s → coreFullmatch (String.mk x) = true := by
  intro fuel
  induction fuel with
  | zero =>
    intro prev s x h
    simp [findallAux] at h
  | succ fuel ih =>
    intro prev s x h
    rw [findallAux_succ] at h
    split at h
    · rename_i n hm
      rcases List.mem_cons.mp h with rfl | h'
      · obtain ⟨A, B, C, heq, hA, hAall, hB, hBall, hC2, hCall⟩ :=
          matchFrom_decomp prev s n hm
        rw [heq]
        exact coreFullmatch_of_decomp A B C hA hAall hB hBall hC2 hCall
      · exact ih _ _ x h'
    · rename_i hm
      split at h
      · simp at h
      · exact ih _ _ x h

/-- Every string the scanner returns is a whole-string match of the
pattern core. -/
theorem findall_core (s x : String) (h : x ∈ findall s) :
    coreFullmatch x = true := by
  rw [findall] at h
  rcases List.mem_map.mp h with ⟨cs, hcs, rfl⟩
  exact findallAux_core _ none s.data cs hcs

/-! ## Dispatch case lemmas -/

theorem fileMatches_supported (f : InputFile)
    (hext : pyLower (splitextExt f.name) ∈ [".xls", ".xlsx", ".xlsm", ".docx", ".pdf"]) :
    fileMatches f = (f.units.map findall).flatten := by
  simp only [List.mem_cons, List.not_mem_nil, or_false] at hext
  rcases hext with h | h | h | h | h <;>
    simp [fileMatches, h]

theorem fileMatches_unsupported (f : InputFile)
    (hext : pyLower (splitextExt f.name) ∉ [".xls", ".xlsx", ".xlsm", ".docx", ".pdf"]) :
    fileMatches f = [] := by
  simp only [List.mem_cons, List.not_mem_nil, or_false, not_or] at hext
  obtain ⟨h1, h2, h3, h4, h5⟩ := hext
  simp [fileMatches, h1, h2, h3, h4, h5]

theorem fileLogs_supported_err (total idx : Nat) (f : InputFile) (e : String)
    (hext : pyLower (splitextExt f.name) ∈ [".xls", ".xlsx", ".xlsm", ".docx", ".pdf"])
    (herr : f.err = some e) :
    fileLogs true total idx f =
      ["Processing file " ++ toString idx ++ "/" ++ toString total ++ ": " ++ f.name,
       "Error processing file " ++ f.name ++ ": " ++ e] := by
  simp only [List.mem_cons, List.not_mem_nil, or_false] at hext
  rcases hext with h | h | h | h | h <;>
    simp [fileLogs, h, herr]

theorem fileLogs_unsupported (total idx : Nat) (f : InputFile)
    (hext : pyLower (splitextExt f.name) ∉ [".xls", ".xlsx", ".xlsm", ".docx", ".pdf"]) :
    fileLogs true total idx f =
      ["Processing file " ++ toString idx ++ "/" ++ toString total ++ ": " ++ f.name,
       "Unsupported file type: " ++ f.name] := by
  simp only [List.mem_cons, List.not_mem_nil, or_false, not_or] at hext
  obtain ⟨h1, h2, h3, h4, h5⟩ := hext
  simp [fileLogs, h1, h2, h3, h4, h5]

theorem fileMatches_cases (f : InputFile) :
    fileMatches f = (f.units.map findall).flatten ∨ fileMatches f = [] := by
  simp only [fileMatches]
  split
  · exact Or.inl rfl
  · split
    · exact Or.inl rfl
    · split
      · exact Or.inl rfl
      · exact Or.inr rfl

/-! ## The claims -/

/-- C1: for every batch of input files (and either callback mode), the
email list returned by `extract_emails_from_files` is strictly ascending
in Python's plain (case-sensitive, code point) string comparison — hence
sorted and without duplicate entries — and contains exactly the addresses
matched in some file, so two occurrences of one address in different
files collapse to a single output entry. -/
theorem c1_output_sorted_nodup_collapsed (files : List InputFile) (cb : Bool) :
    (extract_emails_from_files files cb).1.Pairwise (fun a b => strLtb a b = true) ∧
    (extract_emails_from_files files cb).1.Nodup ∧
    (∀ x, x ∈ (extract_emails_from_files files cb).1 ↔ ∃ f ∈ files, x ∈ fileMatches f) := by
  refine ⟨pySortedSet_pairwise _, ?_, ?_⟩
  · exact List.Pairwise.imp (fun h => strLtb_ne h) (pySortedSet_pairwise _)
  · intro x
    show x ∈ pySortedSet (runFiles cb files.length 1 files).1 ↔ _
    rw [pySortedSet_mem, runFiles_fst]
    simp only [List.mem_flatten, List.mem_map]
    constructor
    · rintro ⟨l, ⟨f, hf, rfl⟩, hx⟩
      exact ⟨f, hf, hx⟩
    · rintro ⟨f, hf, hx⟩
      exact ⟨fileMatches f, ⟨f, hf, rfl⟩, hx⟩

/-- C2: with a callback supplied, the pipeline's outcome is the pair of
the ordered (sorted, deduplicated) extracted email strings and the full
ordered sequence of log messages produced during the run — the per-file
log blocks concatenated in file order, files numbered from 1. -/
theorem c2_returns_emails_with_log_trace (files : List InputFile) :
    extract_emails_from_files files true =
      (pySortedSet ((files.map fileMatches).flatten),
       ((List.enumFrom 1 files).map
         (fun p => fileLogs true files.length p.1 p.2)).flatten) := by
  show (pySortedSet (runFiles true files.length 1 files).1,
        (runFiles true files.length 1 files).2) = _
  rw [runFiles_fst, runFiles_snd]

/-- C3 (counterexample): a file whose reader yields the text unit
`"reach x@yz.net now"` and then raises contributes the match
`"x@yz.net"` to the final result, contradicting "the failing file
contributes zero matches to the result": the run returns it even though
exactly one error log line was emitted for that file. -/
theorem c3_counterexample_failing_file_contributes :
    extract_emails_from_files
        [⟨"data.xlsx", ["reach x@yz.net now"], some "boom"⟩,
         ⟨"b.docx", ["y@zz.org"], none⟩] true =
      (["x@yz.net", "y@zz.org"],
       ["Processing file 1/2: data.xlsx",
        "Error processing file data.xlsx: boom",
        "Processing file 2/2: b.docx"]) ∧
    "x@yz.net" ∈ (extract_emails_from_files
        [⟨"data.xlsx", ["reach x@yz.net now"], some "boom"⟩,
         ⟨"b.docx", ["y@zz.org"], none⟩] true).1 := by
  decide

/-- C3 (amended): an error while reading a supported-extension file is
caught at the per-file boundary: the run emits exactly one
`"Error processing file <name>: <error message>"` line for that file
(right after its progress line), the batch never aborts, all subsequent
files are processed normally, and the failing file contributes exactly
the matches of the text units read before the error — zero only when the
error happens before any text was extracted. -/
theorem c3_amended_error_isolated_partial_matches
    (pre post : List InputFile) (name e : String) (units : List String)
    (hext : pyLower (splitextExt name) ∈ [".xls", ".xlsx", ".xlsm", ".docx", ".pdf"]) :
    extract_emails_from_files (pre ++ (⟨name, units, some e⟩ : InputFile) :: post) true =
      (pySortedSet ((pre.map fileMatches).flatten ++ (units.map findall).flatten ++
         (post.map fileMatches).flatten),
       (runFiles true (pre.length + (post.length + 1)) 1 pre).2 ++
         ("Processing file " ++ toString (pre.length + 1) ++ "/" ++
            toString (pre.length + (post.length + 1)) ++ ": " ++ name) ::
         ("Error processing file " ++ name ++ ": " ++ e) ::
         (runFiles true (pre.length + (post.length + 1)) (pre.length + 2) post).2) := by
  have htotal : (pre ++ (⟨name, units, some e⟩ : InputFile) :: post).length
      = pre.length + (post.length + 1) := by
    simp
  show (pySortedSet (runFiles true _ 1 _).1, (runFiles true _ 1 _).2) = _
  rw [htotal, runFiles_append true (pre.length + (post.length + 1)) pre
    ((⟨name, units, some e⟩ : InputFile) :: post) 1]
  simp only [runFiles]
  rw [fileMatches_supported ⟨name, units, some e⟩ hext,
    fileLogs_supported_err (pre.length + (post.length + 1)) (1 + pre.length)
      ⟨name, units, some e⟩ e hext rfl]
  rw [runFiles_fst, runFiles_fst]
  have hidx2 : 1 + pre.length + 1 = pre.length + 2 := by omega
  have hidx : 1 + pre.length = pre.length + 1 := by omega
  rw [hidx2, hidx]
  simp [List.append_assoc]

theorem c3_amended_error_isolated_partial_matches_witness :
    pyLower (splitextExt "c.xlsx") ∈ [".xls", ".xlsx", ".xlsm", ".docx", ".pdf"] ∧
    extract_emails_from_files
        ([⟨"a.pdf", ["p@qq.io"], none⟩] ++
          (⟨"c.xlsx", ["m@nn.co"], some "bad"⟩ : InputFile) :: [⟨"b.docx", [], none⟩]) true =
      (pySortedSet
         (([(⟨"a.pdf", ["p@qq.io"], none⟩ : InputFile)].map fileMatches).flatten ++
           (["m@nn.co"].map findall).flatten ++
           ([(⟨"b.docx", [], none⟩ : InputFile)].map fileMatches).flatten),
       (runFiles true
           ([(⟨"a.pdf", ["p@qq.io"], none⟩ : InputFile)].length +
             ([(⟨"b.docx", [], none⟩ : InputFile)].length + 1)) 1
           [⟨"a.pdf", ["p@qq.io"], none⟩]).2 ++
         ("Processing file " ++
            toString ([(⟨"a.pdf", ["p@qq.io"], none⟩ : InputFile)].length + 1) ++ "/" ++
            toString ([(⟨"a.pdf", ["p@qq.io"], none⟩ : InputFile)].length +
              ([(⟨"b.docx", [], none⟩ : InputFile)].length + 1)) ++ ": " ++ "c.xlsx") ::
         ("Error processing file " ++ "c.xlsx" ++ ": " ++ "bad") ::
         (runFiles true
             ([(⟨"a.pdf", ["p@qq.io"], none⟩ : InputFile)].length +
               ([(⟨"b.docx", [], none⟩ : InputFile)].length + 1))
             ([(⟨"a.pdf", ["p@qq.io"], none⟩ : InputFile)].length + 2)
             [⟨"b.docx", [], none⟩]).2) :=
  ⟨by decide,
   c3_amended_error_isolated_partial_matches
     [⟨"a.pdf", ["p@qq.io"], none⟩] [⟨"b.docx", [], none⟩]
     "c.xlsx" "bad" ["m@nn.co"] (by decide)⟩

/-- C4: a batch of exactly one file with an unrecognized extension
returns the empty email list and produces exactly two log lines — the
progress line and one line noting the unsupported type — and, being a
total function of the inputs, completes without raising. -/
theorem c4_single_unsupported_file (f : InputFile)
    (hext : pyLower (splitextExt f.name) ∉ [".xls", ".xlsx", ".xlsm", ".docx", ".pdf"]) :
    extract_emails_from_files [f] true =
      ([], ["Processing file 1/1: " ++ f.name, "Unsupported file type: " ++ f.name]) := by
  show (pySortedSet (runFiles true 1 1 [f]).1, (runFiles true 1 1 [f]).2) = _
  simp only [runFiles]
  rw [fileMatches_unsupported f hext, fileLogs_unsupported 1 1 f hext]
  rfl

theorem c4_single_unsupported_file_witness :
    pyLower (splitextExt "img.png") ∉ [".xls", ".xlsx", ".xlsm", ".docx", ".pdf"] ∧
    extract_emails_from_files [⟨"img.png", [], none⟩] true =
      ([], ["Processing file 1/1: " ++ "img.png", "Unsupported file type: " ++ "img.png"]) :=
  ⟨by decide, c4_single_unsupported_file ⟨"img.png", [], none⟩ (by decide)⟩

/-- C5: scanning the text unit `"Contact: jane.doe@example.com!"` with
the email pattern yields exactly the single match
`"jane.doe@example.com"`; the trailing `'!'` is excluded. -/
theorem c5_trailing_punctuation_excluded :
    findall "Contact: jane.doe@example.com!" = ["jane.doe@example.com"] := by
  decide

/-- C6: scanning the text unit `"a@b.c"` with the email pattern yields
no match: the top-level label `"c"` is shorter than the required 2
alphabetic characters. -/
theorem c6_short_top_level_label_no_match : findall "a@b.c" = [] := by
  decide

/-- C7: extraction is deterministic: running it on two identical batches
(in the same callback mode) yields identical output email lists. -/
theorem c7_deterministic_idempotent (files₁ files₂ : List InputFile) (cb : Bool)
    (h : files₁ = files₂) :
    (extract_emails_from_files files₁ cb).1 = (extract_emails_from_files files₂ cb).1 := by
  rw [h]

theorem c7_deterministic_idempotent_witness :
    (extract_emails_from_files [⟨"a.docx", ["m@nn.co"], none⟩] true).1 =
      (extract_emails_from_files [⟨"a.docx", ["m@nn.co"], none⟩] true).1 :=
  c7_deterministic_idempotent _ _ true rfl

/-- C8: an empty batch does not raise, dispatches nothing, emits no log
messages in either callback mode, and returns the empty email list. -/
theorem c8_empty_batch_noop (cb : Bool) :
    extract_emails_from_files [] cb = ([], []) := rfl

/-- C9 (noninterference): the returned email list is the same whether the
log callback is absent or present — the callback gates only the log
messages, never which emails are returned or their order. -/
theorem c9_callback_cannot_change_emails (files : List InputFile) (b₁ b₂ : Bool) :
    (extract_emails_from_files files b₁).1 = (extract_emails_from_files files b₂).1 := by
  show pySortedSet (runFiles b₁ files.length 1 files).1 =
    pySortedSet (runFiles b₂ files.length 1 files).1
  rw [runFiles_fst, runFiles_fst]

/-- C10 (counterexample): the batch of the single `.docx` file whose one
text unit is `"ab@cd.ef.x@gh.ij"` returns the entry `".x@gh.ij"`, which
does not match the email pattern from its first character to its last
(the leading `\b` fails before `'.'` at a text start). -/
theorem c10_counterexample_returned_entry_not_fullmatch :
    ".x@gh.ij" ∈ (extract_emails_from_files
        [⟨"notes.docx", ["ab@cd.ef.x@gh.ij"], none⟩] true).1 ∧
    emailFullmatch ".x@gh.ij" = false := by
  decide

/-- C10 (amended): every string in the returned list is a whole-string
match of the email pattern *body* `[a-zA-Z0-9._%+-]+@[a-zA-Z0-9.-]+\.[a-zA-Z]{2,}`
(local part, `'@'`, domain, dot, 2+ letter top-level label, spanning the
entire entry); with the two `\b` anchors included, the full-string match
can fail, as the counterexample shows. -/
theorem c10_amended_every_entry_matches_core (files : List InputFile) (cb : Bool)
    (x : String) (h : x ∈ (extract_emails_from_files files cb).1) :
    coreFullmatch x = true := by
  have h' : x ∈ pySortedSet (runFiles cb files.length 1 files).1 := h
  rw [pySortedSet_mem, runFiles_fst] at h'
  rcases List.mem_flatten.mp h' with ⟨l, hl, hxl⟩
  rcases List.mem_map.mp hl with ⟨f, _, rfl⟩
  rcases fileMatches_cases f with hcase | hcase
  · rw [hcase] at hxl
    rcases List.mem_flatten.mp hxl with ⟨m, hm, hxm⟩
    rcases List.mem_map.mp hm with ⟨u, _, rfl⟩
    exact findall_core u x hxm
  · rw [hcase] at hxl
    simp at hxl

theorem c10_amended_every_entry_matches_core_witness :
    "ab@cd.ef" ∈ (extract_emails_from_files
        [⟨"notes.docx", ["ab@cd.ef.x@gh.ij"], none⟩] true).1 ∧
    coreFullmatch "ab@cd.ef" = true :=
  ⟨by decide,
   c10_amended_every_entry_matches_core
     [⟨"notes.docx", ["ab@cd.ef.x@gh.ij"], none⟩] true "ab@cd.ef" (by decide)⟩

end EmailExtractor
